import Mathlib

/-!
# Verification of the torrent metadata generator (`generator.py`)

A shallow embedding of the torrent-file generator.  Paths and file contents
are modelled as `List Char` (one `Char` per byte); the filesystem, the
current working directory and the clock are explicit parameters, so every
operation of the source becomes a pure Lean function.

Conventions:
* `FileSys` packages what the source reads from the OS: which paths are
  directories (`os.path.isdir`), each file's bytes (`open(...).read()` /
  `os.path.getsize`), the flattened `os.walk` result for a directory
  (`collect_child_file_paths`), and the base name of the current working
  directory (which `os.path.abspath('')` exposes to the hidden-file filter).
* Python's in-place mutation of the caller's `file_paths` list is modelled
  by returning the mutated list (`caller_paths`) from `process_files`.
* `time.time()` is modelled as an explicit `now : Nat` argument.
-/

/-- A filesystem snapshot: directory set, file contents, `os.walk` results
(the already-joined descendant file paths of a directory), and the base name
of the process working directory. -/
structure FileSys where
  dirList : List (List Char)
  fileContents : List (List Char × List Char)
  walkList : List (List Char × List (List Char))
  cwdBase : List Char
deriving DecidableEq

/-- Model of `os.path.isdir`. -/
def FileSys.isDir (fs : FileSys) (p : List Char) : Bool :=
  fs.dirList.contains p

/-- Model of reading a file's bytes (`open(p, 'rb').read()`; also the text
read of `index.html`, one `Char` per byte). -/
def FileSys.content (fs : FileSys) (p : List Char) : List Char :=
  (fs.fileContents.lookup p).getD []

/-- Model of `collect_child_file_paths` (line 43): the joined
`dirpath/filename` results of `os.walk(path)`, provided by the snapshot. -/
def FileSys.walkFiles (fs : FileSys) (p : List Char) : List (List Char) :=
  (fs.walkList.lookup p).getD []

/-- Longest common prefix of two character lists. -/
def commonPrefix2 : List Char → List Char → List Char
  | x :: xs, y :: ys => if x = y then x :: commonPrefix2 xs ys else []
  | _, _ => []

/-- Model of `os.path.commonprefix`: the character-wise (not path-aware)
longest common prefix of all the strings; `commonprefix([]) = ''`. -/
def commonprefix : List (List Char) → List Char
  | [] => []
  | p :: ps => ps.foldl commonPrefix2 p

/-- Strip all trailing `/` characters (Python `str.rstrip(os.sep)`). -/
def rstripSlash (p : List Char) : List Char :=
  (p.reverse.dropWhile (fun c => c == '/')).reverse

/-- Model of `os.path.basename`: the suffix after the last `/`. -/
def basename (p : List Char) : List Char :=
  (p.reverse.takeWhile (fun c => c != '/')).reverse

/-- Model of `os.path.split(p)[0]` (posix): everything up to the last `/`,
with trailing slashes stripped unless the head is empty or all slashes. -/
def splitHead (p : List Char) : List Char :=
  let tail := (p.reverse.takeWhile (fun c => c != '/')).reverse
  let head := p.take (p.length - tail.length)
  if head.isEmpty then head
  else if head.all (fun c => c == '/') then head
  else rstripSlash head

/-- `common_path_for_files` (lines 16-24): character-wise common prefix of
the input paths, widened to its parent when it is not itself a directory. -/
def common_path_for_files (fs : FileSys) (file_paths : List (List Char)) : List Char :=
  let common_prefix := commonprefix file_paths
  if fs.isDir common_prefix then common_prefix else splitHead common_prefix

/-- One step of Python `str.replace(old, '')` with the given fuel (an upper
bound on the remaining string length): scan left to right, deleting each
non-overlapping occurrence of `pat`.  With `fuel = s.length` this is exactly
`s.replace(pat, '')` for non-empty `pat` (the only way the source calls it:
the pattern always ends in `/`). -/
def replaceAllFuel (pat : List Char) : Nat → List Char → List Char
  | _, [] => []
  | 0, s => s
  | fuel + 1, c :: t =>
    if pat.isPrefixOf (c :: t) then replaceAllFuel pat fuel ((c :: t).drop pat.length)
    else c :: replaceAllFuel pat fuel t

/-- Python `s.replace(pat, '')` for non-empty `pat`. -/
def replaceAll (s pat : List Char) : List Char :=
  replaceAllFuel pat s.length s

/-- `relativize_file_path` (lines 27-28): removes every occurrence of
`common_path.rstrip(os.sep) + os.sep` from `file_path` — Python `str.replace`
replaces all occurrences, not only a leading one. -/
def relativize_file_path (file_path common_path : List Char) : List Char :=
  replaceAll file_path (rstripSlash common_path ++ ['/'])

/-- Helper for `split_path_components`: split at `/`, accumulating the
current (reversed) component. -/
def splitPathAux (cur : List Char) : List Char → List (List Char)
  | [] => [cur.reverse]
  | c :: rest => if c = '/' then cur.reverse :: splitPathAux [] rest else splitPathAux (c :: cur) rest

/-- `split_path_components` (lines 31-32): `file_path.split(os.sep)`. -/
def split_path_components (file_path : List Char) : List (List Char) :=
  splitPathAux [] file_path

/-- Model of `os.path.join` folded over the remaining components (posix
semantics: an absolute component restarts the result; otherwise a `/` is
inserted unless the accumulator is empty or already ends in `/`). -/
def osJoinGo (acc : List Char) : List (List Char) → List Char
  | [] => acc
  | b :: rest =>
    osJoinGo
      (if b.head? = some '/' then b
       else if acc = [] ∨ acc.getLast? = some '/' then acc ++ b
       else acc ++ '/' :: b) rest

/-- `join_path_component_list` (lines 35-40): `os.path.join(*components)`,
then a leading separator is restored when the first component is empty. -/
def join_path_component_list : List (List Char) → List Char
  | [] => []
  | a :: rest =>
    let joined := osJoinGo a rest
    if a = [] then '/' :: joined else joined

/-- The per-component hidden test of `filter_hidden_files` (line 53):
`os.path.basename(os.path.abspath(element)).startswith('.')`.  For a plain
component this is the component's own first character; for the empty
component `os.path.abspath('')` is the working directory, whose base name
the snapshot carries.  `has_hidden_attribute` (lines 59-66) is always
`False` off Windows (`ctypes.windll` raises `AttributeError`), so it is
modelled as `false`. -/
def hidden_component (fs : FileSys) (e : List Char) : Bool :=
  match (if e.isEmpty then fs.cwdBase else e) with
  | c :: _ => c == '.'
  | [] => false

/-- `filter_hidden_files` (lines 47-56): split every path into components,
drop the paths having any hidden component, and rebuild the survivors with
`join_path_component_list`. -/
def filter_hidden_files (fs : FileSys) (file_paths : List (List Char)) : List (List Char) :=
  let split_paths := file_paths.map split_path_components
  (split_paths.filter (fun sp => !(sp.any (hidden_component fs)))).map join_path_component_list

/-- A `file_detail` dictionary (lines 92-102). -/
structure FileDetail where
  name : List Char
  full_path : List Char
  rel_path : List Char
  file_length : Nat
  rel_path_components : List (List Char)
deriving DecidableEq, Inhabited

/-- `build_file_detail_dict` (lines 92-102); `os.path.getsize` is the length
of the file's bytes in the snapshot. -/
def build_file_detail_dict (fs : FileSys) (file_path common_path : List Char) : FileDetail :=
  let rel_path := relativize_file_path file_path common_path
  let rel_path_components := split_path_components rel_path
  { name := rel_path_components.getLastD []
    full_path := file_path
    rel_path := rel_path
    file_length := (fs.content file_path).length
    rel_path_components := rel_path_components }

/-- The idealized content digest.  The source uses `hashlib.sha1`, an
external primitive producing a 20-byte digest; the development models it as
an ideal (collision-free) digest, i.e. an injective function of the hashed
bytes.  Every theorem below about digests depends only on the digest being a
function of the hashed bytes and, for the info-hash characterization, on
collision-freedom — the standard idealization of a cryptographic hash. -/
def sha1 (data : List Char) : List Char := data

/-- `sha1_hash_for_generator` (lines 69-71): one digest per piece. -/
def sha1_hash_for_generator (pieces : List (List Char)) : List (List Char) :=
  pieces.map sha1

/-- The byte accumulator of `read_in_pieces` (lines 74-84), per file.
The source's inner loop reads `piece_length - len(data)` bytes at a time,
yielding `data` and resetting it each time it reaches `piece_length`; its
net effect on the accumulator and one file's bytes is to emit, in order,
each full `piece_length`-sized chunk of `acc ++ bytes` and to keep the final
short remainder as the new accumulator.  `chunksGo plen acc bytes` performs
exactly that, one byte at a time: `(emitted pieces, new accumulator)`. -/
def chunksGo (plen : Nat) : List Char → List Char → List (List Char) × List Char
  | acc, [] => ([], acc)
  | acc, c :: rest =>
    if acc.length + 1 = plen then
      ((acc ++ [c]) :: (chunksGo plen [] rest).1, (chunksGo plen [] rest).2)
    else chunksGo plen (acc ++ [c]) rest

/-- The generator loop of `read_in_pieces` over the file list; after the
last file the accumulator is yielded unconditionally (line 84), even when it
is empty. -/
def readPiecesGo (plen : Nat) : List Char → List (List Char) → List (List Char)
  | carry, [] => [carry]
  | carry, f :: fs =>
    (chunksGo plen carry f).1 ++ readPiecesGo plen (chunksGo plen carry f).2 fs

/-- `read_in_pieces` (lines 74-84) on the listed files' bytes. -/
def read_in_pieces (files : List (List Char)) (piece_length : Nat) : List (List Char) :=
  readPiecesGo piece_length [] files

/-- `hash_pieces_for_file_paths` (lines 87-89): digest every piece of the
files, read in list order, and concatenate the digests. -/
def hash_pieces_for_file_paths (fs : FileSys) (file_paths : List (List Char))
    (piece_length : Nat) : List Char :=
  (sha1_hash_for_generator (read_in_pieces (file_paths.map fs.content) piece_length)).flatten

/-- `html_position_sort` (lines 127-133): `in_str.find(sub_str)`, with a
miss mapped to `len(in_str)`. -/
def findSub (sub : List Char) : List Char → Option Nat
  | [] => if sub.isPrefixOf [] then some 0 else none
  | c :: t =>
    if sub.isPrefixOf (c :: t) then some 0
    else (findSub sub t).map (fun n => n + 1)

/-- `html_position_sort` (lines 127-133). -/
def html_position_sort (in_str sub_str : List Char) : Nat :=
  match findSub sub_str in_str with
  | some position => position
  | none => in_str.length

/-- Stable insertion for `sortByKey`: the new element goes after every
element whose key is less than or equal to its own. -/
def insertSorted {α : Type} (key : α → Nat) (x : α) : List α → List α
  | [] => [x]
  | y :: ys => if key y ≤ key x then y :: insertSorted key x ys else x :: y :: ys

/-- Model of Python's stable `list.sort(key=...)`: a stable insertion sort
(equal keys keep their original relative order). -/
def sortByKey {α : Type} (key : α → Nat) (l : List α) : List α :=
  l.foldl (fun acc x => insertSorted key x acc) []

/-- Whether a detail is the root-level `index.html` (the test on lines 112
and 122). -/
def isRootIndexHtml (item : FileDetail) : Bool :=
  item.rel_path_components.length == 1 && item.name == "index.html".toList

/-- `sort_files` (lines 105-124): three sequential stable sorts — by path
depth; then (when a root-level `index.html` exists and its content is
non-empty) by first-occurrence offset of each relative path in that content;
then the root `index.html` itself to the front (`reverse=True` on the boolean
key is the stable ascending sort on the flipped key). -/
def sort_files (fs : FileSys) (file_details : List FileDetail) : List FileDetail :=
  let d1 := sortByKey (fun item => item.rel_path_components.length) file_details
  let index_contents :=
    match d1.find? isRootIndexHtml with
    | some item => fs.content item.full_path
    | none => []
  let d2 :=
    if index_contents.isEmpty then d1
    else sortByKey (fun item => html_position_sort index_contents item.rel_path) d1
  sortByKey (fun item => if isRootIndexHtml item then 0 else 1) d2

/-- The result of `process_files` (lines 136-160).  `caller_paths` is the
state of the caller's `file_paths` list object after the in-place
`extend`/`remove` mutation (lines 146-148); `hashed_paths` is the local
(possibly hidden-filtered) list the pieces are hashed from. -/
structure ProcessResult where
  file_details : List FileDetail
  common_path : List Char
  pieces : List Char
  caller_paths : List (List Char)
  hashed_paths : List (List Char)
deriving DecidableEq

/-- The in-place mutation of the caller's list (lines 139-148): all walk
results of the directory entries are appended, then each directory entry is
removed (`list.remove` deletes the first occurrence, once per directory
occurrence in the original list). -/
def expandedPaths (fs : FileSys) (file_paths : List (List Char)) : List (List Char) :=
  List.foldl List.erase
    (file_paths ++ ((file_paths.filter fs.isDir).map fs.walkFiles).flatten)
    (file_paths.filter fs.isDir)

/-- The local `file_paths` after optional hidden filtering (lines 150-151);
the caller's list object is not rebound by this step. -/
def filteredPaths (fs : FileSys) (file_paths : List (List Char)) (include_hidden : Bool) :
    List (List Char) :=
  if include_hidden then expandedPaths fs file_paths
  else filter_hidden_files fs (expandedPaths fs file_paths)

/-- `process_files` (lines 136-160).  Note, as in the source: the common
path is computed on the original, unexpanded input (line 137); the detail
dictionaries come from the filtered list; `sort_files` reorders only
`file_details` (line 156) while the pieces are hashed from the unsorted
`file_paths` local (line 158). -/
def process_files (fs : FileSys) (file_paths : List (List Char)) (piece_length : Nat)
    (include_hidden optimize_file_order : Bool) : ProcessResult :=
  let common_path := common_path_for_files fs file_paths
  let filtered := filteredPaths fs file_paths include_hidden
  let details := filtered.map (fun p => build_file_detail_dict fs p common_path)
  { file_details := if optimize_file_order then sort_files fs details else details
    common_path := common_path
    pieces := hash_pieces_for_file_paths fs filtered piece_length
    caller_paths := expandedPaths fs file_paths
    hashed_paths := filtered }

/-- One entry of the multi-file `info['files']` list (lines 205-206). -/
structure FileEntry where
  length : Nat
  path : List (List Char)
deriving DecidableEq

/-- The mode-dependent part of the `info` dictionary: `length` in single
file mode (line 202), `files` in multi file mode (lines 205-206). -/
inductive FileInfo where
  | single (length : Nat)
  | multi (files : List FileEntry)
deriving DecidableEq

/-- The `info` sub-dictionary (lines 186-190, 200-206). -/
structure InfoDict where
  name : List Char
  pieceLength : Nat
  pieces : List Char
  fileInfo : FileInfo
deriving DecidableEq

/-- The full torrent dictionary (lines 181-208).  An `Option` field models
the presence or absence of the corresponding key; the source never writes a
`comment` key, so that field records its absence. -/
structure TorrentDict where
  createdBy : List Char
  creationDate : Nat
  encoding : List Char
  info : InfoDict
  announce : Option (List Char)
  announceList : Option (List (List (List Char)))
  urlList : Option (List (List Char))
  comment : Option (List Char)
deriving DecidableEq

/-- `build_torrent_dict` (lines 163-208).  `trackers=None` and
`webseeds=None` default to `[]` (lines 165-169).  The `len(file_paths)`
tests on lines 174 and 200 read the caller's list object, which
`process_files` has mutated in place, so they see the expanded, unfiltered
list (`caller_paths`).  `time.time()` is the explicit `now`. -/
def build_torrent_dict (fs : FileSys) (file_paths : List (List Char))
    (name : Option (List Char)) (trackers webseeds : Option (List (List Char)))
    (piece_length : Nat) (include_hidden optimize_file_order : Bool) (now : Nat) :
    TorrentDict :=
  let ts := trackers.getD []
  let ws := webseeds.getD []
  let r := process_files fs file_paths piece_length include_hidden optimize_file_order
  let nm :=
    match name with
    | some n => n
    | none =>
      if r.caller_paths.length = 1 then basename (r.caller_paths.headD [])
      else basename (rstripSlash r.common_path)
  { createdBy := "TWT-Gen/0.0.1".toList
    creationDate := now
    encoding := "UTF-8".toList
    info :=
      { name := nm
        pieceLength := piece_length
        pieces := r.pieces
        fileInfo :=
          if r.caller_paths.length = 1 then
            FileInfo.single (r.file_details.headD default).file_length
          else
            FileInfo.multi (r.file_details.map
              (fun details => { length := details.file_length
                                path := details.rel_path_components })) }
    announce := match ts with | [] => none | t :: _ => some t
    announceList := match ts with | [] => none | _ :: _ => some [ts]
    urlList := match ws with | [] => none | _ :: _ => some ws
    comment := none }

/-- Decimal digit characters of a natural number, most significant first
(the digit string a bencode integer or length prefix carries). -/
def natChars (n : Nat) : List Char :=
  if n < 10 then [Char.ofNat (48 + n)]
  else natChars (n / 10) ++ [Char.ofNat (48 + n % 10)]
decreasing_by exact Nat.div_lt_self (by omega) (by omega)

/-- Modelled from the spec: the bencode library (imported, not part of this
repository) serializes a byte string as `<decimal length>:<bytes>`. -/
def encStr (s : List Char) : List Char :=
  natChars s.length ++ ':' :: s

/-- Modelled from the spec: bencode serializes an integer as `i<value>e`
(all integers this program writes are non-negative). -/
def encInt (n : Nat) : List Char :=
  'i' :: (natChars n ++ ['e'])

/-- Modelled from the spec: the bencoding of one `info['files']` entry — a
dictionary with keys `length` and `path` (already in sorted key order), the
`path` value a list of byte strings, lists delimited by `l`/`e` and
dictionaries by `d`/`e`. -/
def encFileEntry (e : FileEntry) : List Char :=
  'd' :: (encStr "length".toList ++ (encInt e.length ++
    (encStr "path".toList ++ ('l' :: ((e.path.map encStr).flatten ++ ['e', 'e'])))))

/-- Modelled from the spec: the mode-dependent first key of the bencoded
`info` dictionary — `6:length i<n>e` in single file mode, `5:files l...e`
in multi file mode.  In sorted key order both precede `name`. -/
def encFilesField : FileInfo → List Char
  | FileInfo.single n => encStr "length".toList ++ encInt n
  | FileInfo.multi files =>
    encStr "files".toList ++ ('l' :: ((files.map encFileEntry).flatten ++ ['e']))

/-- Modelled from the spec: the bencoding of the `info` sub-dictionary with
its keys in sorted byte order (`files`/`length` < `name` < `piece length` <
`pieces`), as the external bencode library emits it. -/
def bencodeInfo (d : InfoDict) : List Char :=
  'd' :: (encFilesField d.fileInfo ++
    (encStr "name".toList ++ (encStr d.name ++
      (encStr "piece length".toList ++ (encInt d.pieceLength ++
        (encStr "pieces".toList ++ (encStr d.pieces ++ ['e'])))))))

/-- Modelled from the spec: `base64.b32encode`, a display re-encoding of the
20-byte digest; injective on digests, modelled as the identity re-encoding. -/
def b32encode (digest : List Char) : List Char := digest

/-- `get_info_hash` (lines 216-217): `b32encode(sha1(bencode(info_dict)))`. -/
def get_info_hash (info_dict : InfoDict) : List Char :=
  b32encode (sha1 (bencodeInfo info_dict))

/-! ## Lemmas about the piece reader -/

/-- Chunking distributes over concatenation: feeding `a ++ b` to the
accumulator emits the pieces of `a` and then, starting from the remainder
left by `a`, the pieces of `b`. -/
theorem chunksGo_append (plen : Nat) :
    ∀ (a acc b : List Char),
      chunksGo plen acc (a ++ b) =
        ((chunksGo plen acc a).1 ++ (chunksGo plen (chunksGo plen acc a).2 b).1,
         (chunksGo plen (chunksGo plen acc a).2 b).2) := by
  intro a
  induction a with
  | nil => intro acc b; simp [chunksGo]
  | cons c a ih =>
    intro acc b
    by_cases h : acc.length + 1 = plen
    · simp [chunksGo, h, ih]
    · simp [chunksGo, h, ih]

/-- Merging two adjacent files leaves the emitted piece sequence unchanged:
the reader's accumulator carries bytes across the file boundary. -/
theorem readPiecesGo_merge (plen : Nat) (carry f g : List Char) (files : List (List Char)) :
    readPiecesGo plen carry (f :: g :: files) =
      readPiecesGo plen carry ((f ++ g) :: files) := by
  simp [readPiecesGo, chunksGo_append plen f carry g, List.append_assoc]

/-! ## Lemmas about the in-place expansion of the caller's path list -/

/-- An association-list lookup hit comes from an entry of the list. -/
theorem lookup_eq_some_mem {α β : Type} [BEq α] :
    ∀ (l : List (α × β)) (a : α) (b : β), l.lookup a = some b → ∃ k, (k, b) ∈ l := by
  intro l
  induction l with
  | nil => intro a b h; simp [List.lookup] at h
  | cons e t ih =>
    intro a b h
    obtain ⟨k, v⟩ := e
    cases hk : a == k with
    | true =>
      simp only [List.lookup, hk, Option.some.injEq] at h
      exact ⟨k, by simp [← h]⟩
    | false =>
      simp only [List.lookup, hk] at h
      obtain ⟨k2, hb⟩ := ih a b h
      exact ⟨k2, List.mem_cons_of_mem _ hb⟩

/-- A member of any `walkFiles` result is listed under some `walkList`
entry. -/
theorem mem_walkList_of_mem_walkFiles (fs : FileSys) (p c : List Char)
    (hc : c ∈ fs.walkFiles p) : ∃ e ∈ fs.walkList, c ∈ e.2 := by
  unfold FileSys.walkFiles at hc
  cases h : fs.walkList.lookup p with
  | none => rw [h] at hc; simp at hc
  | some l =>
    rw [h] at hc
    obtain ⟨k, hm⟩ := lookup_eq_some_mem fs.walkList p l h
    exact ⟨(k, l), hm, hc⟩

/-- Erasing elements different from the head leaves the head in place. -/
theorem foldl_erase_cons_of_ne (x : List Char) :
    ∀ (todo t : List (List Char)), (∀ d ∈ todo, d ≠ x) →
      List.foldl List.erase (x :: t) todo = x :: List.foldl List.erase t todo := by
  intro todo
  induction todo with
  | nil => intro t _; rfl
  | cons d todo ih =>
    intro t hne
    have hdx : (x == d) = false :=
      beq_eq_false_iff_ne.mpr (fun h => hne d (List.mem_cons_self d todo) h.symm)
    simp only [List.foldl_cons]
    rw [List.erase_cons_tail (by simp [hdx])]
    exact ih (t.erase d) (fun e he => hne e (List.mem_cons_of_mem d he))

/-- Appending non-directory paths and then erasing each directory occurrence
removes exactly the directory entries of the original list and keeps the
appended paths at the end. -/
theorem foldl_erase_filter (fs : FileSys) :
    ∀ (L S : List (List Char)), (∀ x ∈ S, fs.isDir x = false) →
      List.foldl List.erase (L ++ S) (L.filter fs.isDir) =
        L.filter (fun p => !fs.isDir p) ++ S := by
  intro L
  induction L with
  | nil => intro S _; simp
  | cons a L ih =>
    intro S hS
    by_cases h : fs.isDir a
    · simp only [List.cons_append, List.filter_cons, h, if_pos trivial]
      simp only [List.foldl_cons, List.erase_cons_head]
      rw [ih S hS]
      simp [h]
    · have hfilter : (a :: L).filter fs.isDir = L.filter fs.isDir := by
        simp [List.filter_cons, h]
      rw [List.cons_append, hfilter,
        foldl_erase_cons_of_ne a (L.filter fs.isDir) (L ++ S) ?hne, ih S hS]
      · simp [List.filter_cons, h]
      case hne =>
        intro d hd he
        rw [List.mem_filter] at hd
        rw [he] at hd
        exact absurd hd.2 (by simp [h])

/-- The mutated caller list: original entries with every directory
occurrence removed, followed by all walk results, in order.  Requires that
walks return only non-directory paths (`os.walk` yields file names). -/
theorem expandedPaths_spec (fs : FileSys) (L : List (List Char))
    (hwalk : ∀ e ∈ fs.walkList, ∀ c ∈ e.2, fs.isDir c = false) :
    expandedPaths fs L =
      L.filter (fun p => !fs.isDir p) ++ ((L.filter fs.isDir).map fs.walkFiles).flatten := by
  unfold expandedPaths
  apply foldl_erase_filter
  intro x hx
  rw [List.mem_flatten] at hx
  obtain ⟨l, hl, hxl⟩ := hx
  rw [List.mem_map] at hl
  obtain ⟨d, _, rfl⟩ := hl
  obtain ⟨e, he, hce⟩ := mem_walkList_of_mem_walkFiles fs d x hxl
  exact hwalk e he x hce

/-! ## Injectivity of the bencoded `info` section -/

/-- The decimal digit characters have their ASCII codes. -/
theorem digitChar_toNat (d : Nat) (hd : d < 10) : (Char.ofNat (48 + d)).toNat = 48 + d := by
  interval_cases d <;> rfl

/-- The unfolding equation of `natChars`. -/
theorem natChars_eq (n : Nat) :
    natChars n =
      if n < 10 then [Char.ofNat (48 + n)]
      else natChars (n / 10) ++ [Char.ofNat (48 + n % 10)] := by
  rw [natChars]

/-- Every character of a digit string is a decimal digit. -/
theorem natChars_digit (n : Nat) : ∀ c ∈ natChars n, ∃ d, d < 10 ∧ c = Char.ofNat (48 + d) := by
  induction n using Nat.strong_induction_on with
  | _ n ih =>
    rw [natChars_eq]
    split
    · rename_i h
      intro c hc
      simp only [List.mem_singleton] at hc
      exact ⟨n, h, hc⟩
    · rename_i h
      intro c hc
      rcases List.mem_append.mp hc with h1 | h2
      · exact ih (n / 10) (Nat.div_lt_self (by omega) (by omega)) c h1
      · simp only [List.mem_singleton] at h2
        exact ⟨n % 10, Nat.mod_lt _ (by omega), h2⟩

/-- Digit characters have codes at most 57. -/
theorem natChars_toNat_le (n : Nat) (c : Char) (hc : c ∈ natChars n) : c.toNat ≤ 57 := by
  obtain ⟨d, hd, rfl⟩ := natChars_digit n c hc
  rw [digitChar_toNat d hd]
  omega

/-- A digit string never contains a delimiter character (code 58 or more). -/
theorem natChars_ne_sep (n : Nat) (sep : Char) (hsep : 58 ≤ sep.toNat) :
    ∀ c ∈ natChars n, c ≠ sep := by
  intro c hc he
  have := natChars_toNat_le n c hc
  rw [he] at this
  omega

/-- Digit strings are never empty. -/
theorem natChars_ne_nil (n : Nat) : natChars n ≠ [] := by
  rw [natChars_eq]
  split <;> simp

/-- The numeric value read back from a digit string. -/
def charsVal (l : List Char) : Nat :=
  l.foldl (fun a c => a * 10 + (c.toNat - 48)) 0

/-- Reading the digit string of `n` yields `n`. -/
theorem charsVal_natChars (n : Nat) : charsVal (natChars n) = n := by
  induction n using Nat.strong_induction_on with
  | _ n ih =>
    rw [natChars_eq]
    split
    · rename_i h
      simp [charsVal, digitChar_toNat n h]
    · rename_i h
      have ihv := ih (n / 10) (Nat.div_lt_self (by omega) (by omega))
      have hm := digitChar_toNat (n % 10) (Nat.mod_lt _ (by omega))
      simp only [charsVal, List.foldl_append] at ihv ⊢
      rw [ihv, List.foldl_cons, List.foldl_nil, hm]
      omega

/-- Digit strings are injective codes of natural numbers. -/
theorem natChars_inj (m n : Nat) (h : natChars m = natChars n) : m = n := by
  have := congrArg charsVal h
  rwa [charsVal_natChars, charsVal_natChars] at this

/-- Cancellation at the first occurrence of a separator absent from both
prefixes. -/
theorem append_sep_cancel (sep : Char) :
    ∀ (l1 l2 r1 r2 : List Char), (∀ c ∈ l1, c ≠ sep) → (∀ c ∈ l2, c ≠ sep) →
      l1 ++ sep :: r1 = l2 ++ sep :: r2 → l1 = l2 ∧ r1 = r2 := by
  intro l1
  induction l1 with
  | nil =>
    intro l2 r1 r2 _ h2 h
    cases l2 with
    | nil => simpa using h
    | cons b l2 =>
      simp only [List.nil_append, List.cons_append, List.cons.injEq] at h
      exact absurd h.1.symm (h2 b (List.mem_cons_self b l2))
  | cons a l1 ih =>
    intro l2 r1 r2 h1 h2 h
    cases l2 with
    | nil =>
      simp only [List.nil_append, List.cons_append, List.cons.injEq] at h
      exact absurd h.1 (h1 a (List.mem_cons_self a l1))
    | cons b l2 =>
      simp only [List.cons_append, List.cons.injEq] at h
      obtain ⟨rfl, h⟩ := h
      obtain ⟨he, hr⟩ := ih l2 r1 r2 (fun c hc => h1 c (List.mem_cons_of_mem a hc))
        (fun c hc => h2 c (List.mem_cons_of_mem a hc)) h
      exact ⟨by rw [he], hr⟩

/-- A bencoded byte string cancels from the front. -/
theorem encStr_cancel (s1 s2 r1 r2 : List Char) (h : encStr s1 ++ r1 = encStr s2 ++ r2) :
    s1 = s2 ∧ r1 = r2 := by
  unfold encStr at h
  rw [List.append_assoc, List.append_assoc, List.cons_append, List.cons_append] at h
  obtain ⟨hd, ht⟩ := append_sep_cancel ':' _ _ _ _
    (natChars_ne_sep _ ':' (by decide)) (natChars_ne_sep _ ':' (by decide)) h
  exact List.append_inj ht (natChars_inj _ _ hd)

/-- A bencoded integer cancels from the front. -/
theorem encInt_cancel (n1 n2 : Nat) (r1 r2 : List Char) (h : encInt n1 ++ r1 = encInt n2 ++ r2) :
    n1 = n2 ∧ r1 = r2 := by
  unfold encInt at h
  rw [List.cons_append, List.cons_append, List.append_assoc, List.append_assoc,
    List.singleton_append, List.singleton_append, List.cons.injEq] at h
  obtain ⟨hd, ht⟩ := append_sep_cancel 'e' _ _ _ _
    (natChars_ne_sep _ 'e' (by decide)) (natChars_ne_sep _ 'e' (by decide)) h.2
  exact ⟨natChars_inj _ _ hd, ht⟩

/-- A bencoded list body of byte strings, up to its closing `e`, cancels
from the front. -/
theorem encStr_flatten_cancel :
    ∀ (ps1 ps2 : List (List Char)) (r1 r2 : List Char),
      (ps1.map encStr).flatten ++ 'e' :: r1 = (ps2.map encStr).flatten ++ 'e' :: r2 →
      ps1 = ps2 ∧ r1 = r2 := by
  intro ps1
  induction ps1 with
  | nil =>
    intro ps2 r1 r2 h
    cases ps2 with
    | nil => simpa using h
    | cons p ps2 =>
      exfalso
      obtain ⟨c, cs, hc⟩ := List.exists_cons_of_ne_nil (natChars_ne_nil p.length)
      simp only [List.map_cons, List.flatten_cons, List.map_nil, List.flatten_nil,
        List.nil_append, encStr, hc, List.cons_append, List.append_assoc,
        List.cons.injEq] at h
      have hcmem : c ∈ natChars p.length := by rw [hc]; exact List.mem_cons_self c cs
      have := natChars_toNat_le p.length c hcmem
      rw [← h.1] at this
      have he : ('e' : Char).toNat = 101 := rfl
      omega
  | cons a ps1 ih =>
    intro ps2 r1 r2 h
    cases ps2 with
    | nil =>
      exfalso
      obtain ⟨c, cs, hc⟩ := List.exists_cons_of_ne_nil (natChars_ne_nil a.length)
      simp only [List.map_cons, List.flatten_cons, List.map_nil, List.flatten_nil,
        List.nil_append, encStr, hc, List.cons_append, List.append_assoc,
        List.cons.injEq] at h
      have hcmem : c ∈ natChars a.length := by rw [hc]; exact List.mem_cons_self c cs
      have := natChars_toNat_le a.length c hcmem
      rw [h.1] at this
      have he : ('e' : Char).toNat = 101 := rfl
      omega
    | cons b ps2 =>
      simp only [List.map_cons, List.flatten_cons, List.append_assoc] at h
      obtain ⟨rfl, ht⟩ := encStr_cancel _ _ _ _ h
      obtain ⟨hp, hr⟩ := ih ps2 r1 r2 ht
      exact ⟨by rw [hp], hr⟩

/-- A bencoded `files` entry cancels from the front. -/
theorem encFileEntry_cancel (e1 e2 : FileEntry) (r1 r2 : List Char)
    (h : encFileEntry e1 ++ r1 = encFileEntry e2 ++ r2) : e1 = e2 ∧ r1 = r2 := by
  unfold encFileEntry at h
  simp only [List.cons_append, List.append_assoc, List.cons.injEq] at h
  obtain ⟨hlen, ht⟩ := encInt_cancel _ _ _ _ (List.append_cancel_left h.2)
  have ht2 := List.append_cancel_left ht
  simp only [List.cons_append, List.cons.injEq, List.append_assoc] at ht2
  have ht3 : (e1.path.map encStr).flatten ++ 'e' :: ('e' :: r1)
      = (e2.path.map encStr).flatten ++ 'e' :: ('e' :: r2) := by
    simpa using ht2.2
  obtain ⟨hpath, hr⟩ := encStr_flatten_cancel _ _ _ _ ht3
  obtain ⟨l1, p1⟩ := e1
  obtain ⟨l2, p2⟩ := e2
  simp only at hlen hpath
  simp only [List.cons.injEq] at hr
  exact ⟨by rw [hlen, hpath], hr.2⟩

/-- A bencoded list body of `files` entries, up to its closing `e`, cancels
from the front. -/
theorem encFileEntry_flatten_cancel :
    ∀ (fs1 fs2 : List FileEntry) (r1 r2 : List Char),
      (fs1.map encFileEntry).flatten ++ 'e' :: r1 = (fs2.map encFileEntry).flatten ++ 'e' :: r2 →
      fs1 = fs2 ∧ r1 = r2 := by
  intro fs1
  induction fs1 with
  | nil =>
    intro fs2 r1 r2 h
    cases fs2 with
    | nil => simpa using h
    | cons p fs2 =>
      exfalso
      simp only [List.map_cons, List.flatten_cons, List.map_nil, List.flatten_nil,
        List.nil_append, encFileEntry, List.cons_append, List.cons.injEq] at h
      exact absurd h.1 (by decide)
  | cons a fs1 ih =>
    intro fs2 r1 r2 h
    cases fs2 with
    | nil =>
      exfalso
      simp only [List.map_cons, List.flatten_cons, List.map_nil, List.flatten_nil,
        List.nil_append, encFileEntry, List.cons_append, List.cons.injEq] at h
      exact absurd h.1 (by decide)
    | cons b fs2 =>
      simp only [List.map_cons, List.flatten_cons, List.append_assoc] at h
      obtain ⟨rfl, ht⟩ := encFileEntry_cancel _ _ _ _ h
      obtain ⟨hp, hr⟩ := ih fs2 r1 r2 ht
      exact ⟨by rw [hp], hr⟩

/-- The digit string of 6 (the length prefix of the key `length`). -/
theorem natChars_six : natChars 6 = ['6'] := by
  rw [natChars_eq]; decide

/-- The digit string of 5 (the length prefix of the key `files`). -/
theorem natChars_five : natChars 5 = ['5'] := by
  rw [natChars_eq]; decide

/-- The encoded `length` key, concretely. -/
theorem encStr_length_key : encStr "length".toList = '6' :: (':' :: "length".toList) := by
  unfold encStr
  rw [show ("length".toList.length) = 6 from rfl, natChars_six]
  rfl

/-- The encoded `files` key, concretely. -/
theorem encStr_files_key : encStr "files".toList = '5' :: (':' :: "files".toList) := by
  unfold encStr
  rw [show ("files".toList.length) = 5 from rfl, natChars_five]
  rfl

/-- The bencoding of the `info` dictionary is an injective code: two `info`
dictionaries with the same serialization are equal. -/
theorem bencodeInfo_inj (d1 d2 : InfoDict) (h : bencodeInfo d1 = bencodeInfo d2) : d1 = d2 := by
  obtain ⟨n1, pl1, p1, f1⟩ := d1
  obtain ⟨n2, pl2, p2, f2⟩ := d2
  unfold bencodeInfo at h
  simp only [List.cons.injEq, true_and] at h
  cases f1 with
  | single v1 =>
    cases f2 with
    | single v2 =>
      simp only [encFilesField, List.append_assoc] at h
      replace h := List.append_cancel_left h
      obtain ⟨hv, h⟩ := encInt_cancel _ _ _ _ h
      replace h := List.append_cancel_left h
      obtain ⟨hn, h⟩ := encStr_cancel _ _ _ _ h
      replace h := List.append_cancel_left h
      obtain ⟨hpl, h⟩ := encInt_cancel _ _ _ _ h
      replace h := List.append_cancel_left h
      obtain ⟨hp, _⟩ := encStr_cancel _ _ _ _ h
      rw [hv, hn, hpl, hp]
    | multi fs2 =>
      exfalso
      simp only [encFilesField, encStr_length_key, encStr_files_key,
        List.cons_append, List.append_assoc, List.cons.injEq] at h
      exact absurd h.1 (by decide)
  | multi fs1 =>
    cases f2 with
    | single v2 =>
      exfalso
      simp only [encFilesField, encStr_length_key, encStr_files_key,
        List.cons_append, List.append_assoc, List.cons.injEq] at h
      exact absurd h.1 (by decide)
    | multi fs2 =>
      simp only [encFilesField, List.append_assoc, List.cons_append,
        List.singleton_append] at h
      replace h := List.append_cancel_left h
      simp only [List.cons.injEq, List.nil_append, true_and] at h
      obtain ⟨hfs, h⟩ := encFileEntry_flatten_cancel _ _ _ _ h
      replace h := List.append_cancel_left h
      obtain ⟨hn, h⟩ := encStr_cancel _ _ _ _ h
      replace h := List.append_cancel_left h
      obtain ⟨hpl, h⟩ := encInt_cancel _ _ _ _ h
      replace h := List.append_cancel_left h
      obtain ⟨hp, _⟩ := encStr_cancel _ _ _ _ h
      rw [hfs, hn, hpl, hp]

/-! ## The claims -/

/-- C1: the claim states that piece hashing emits exactly `ceil(N / L)`
digests, the final one over `N mod L` bytes (or `L` when `L` divides a
positive `N`), the last piece never empty unless `N = 0`.  The code
violates this: `read_in_pieces` ends with an unconditional `yield data`
(line 84), so for one file of one byte and piece length 1 (`N = L = 1`)
it emits the full piece and then an extra empty piece — two digests, the
final one over 0 bytes, instead of `ceil(1/1) = 1` digest over 1 byte. -/
theorem claim1_empty_trailing_piece :
    read_in_pieces [['a']] 1 = [['a'], []] ∧
    (sha1_hash_for_generator (read_in_pieces [['a']] 1)).length = 2 ∧
    ¬(sha1_hash_for_generator (read_in_pieces [['a']] 1)).length = (1 + 1 - 1) / 1 := by
  decide

/-- The filesystem of the C2 failing input: two plain files
`/r/s/a.txt` (bytes `AA`) and `/r/b.txt` (bytes `BB`) under `/r`. -/
def fsC2 : FileSys :=
  { dirList := ["/r/".toList, "/r".toList, "/r/s".toList]
    fileContents := [("/r/s/a.txt".toList, "AA".toList), ("/r/b.txt".toList, "BB".toList)]
    walkList := []
    cwdBase := "w".toList }

/-- The input path list of the C2 failing input (deeper file first). -/
def pathsC2 : List (List Char) := ["/r/s/a.txt".toList, "/r/b.txt".toList]

/-- C2: the claim states that with `optimize_file_order` true the hashed
byte stream follows the order of the emitted `files` entries.  The code
violates this: `sort_files` reorders only `file_details` (line 156) while
`hash_pieces_for_file_paths` reads the unsorted `file_paths` (line 158).
On the failing input the emitted details are ordered `[b.txt, s/a.txt]`
but the pieces are the digests of `AABB` — the concatenation in the
original input order — and differ from what hashing in the emitted `files`
order would produce. -/
theorem claim2_hash_order_mismatch :
    (process_files fsC2 pathsC2 2 true true).file_details.map FileDetail.name
        = ["b.txt".toList, "a.txt".toList] ∧
    (process_files fsC2 pathsC2 2 true true).pieces = "AABB".toList ∧
    (process_files fsC2 pathsC2 2 true true).pieces ≠
      (sha1_hash_for_generator (read_in_pieces
        ((process_files fsC2 pathsC2 2 true true).file_details.map
          (fun details => fsC2.content details.full_path)) 2)).flatten := by
  decide

/-- C3: splitting a byte stream at a file boundary does not change the
digest sequence — hashing files `A` and `B`, in that catalog order, with
piece length `|A| ≥ 1`, yields the digest sequence of the single file
`A ++ B`. -/
theorem claim3_boundary_transparent (A B : List Char) (h : 1 ≤ A.length) :
    sha1_hash_for_generator (read_in_pieces [A, B] A.length) =
      sha1_hash_for_generator (read_in_pieces [A ++ B] A.length) := by
  unfold sha1_hash_for_generator read_in_pieces
  rw [readPiecesGo_merge]

/-- Witness for C3 at `A = "ab"`, `B = "c"`, piece length 2. -/
theorem claim3_boundary_transparent_witness :
    1 ≤ "ab".toList.length ∧
      sha1_hash_for_generator (read_in_pieces ["ab".toList, "c".toList] "ab".toList.length) =
        sha1_hash_for_generator (read_in_pieces ["ab".toList ++ "c".toList] "ab".toList.length) :=
  ⟨by decide, claim3_boundary_transparent "ab".toList "c".toList (by decide)⟩

/-- Two `info` dictionaries agreeing on all four fields are equal. -/
theorem infoDict_eq_of_fields (i1 i2 : InfoDict) (hn : i1.name = i2.name)
    (hpl : i1.pieceLength = i2.pieceLength) (hp : i1.pieces = i2.pieces)
    (hf : i1.fileInfo = i2.fileInfo) : i1 = i2 := by
  cases i1
  cases i2
  simp_all

/-- C4: the info hash is computed over the bencoding of the `info`
sub-dictionary alone, so any two descriptors with equal `info` sections —
in particular two that differ only in `announce`/`announce-list`,
`url-list`, `comment` or `creation date`, which live outside `info` — have
the same info hash, and the info hash differs exactly when `name`,
`piece length`, `pieces` or the file list differs.  (The digest and its
base-32 display encoding are modelled as ideal injective codes; at the
byte level the statement is the injectivity of the bencoded `info`
section.) -/
theorem claim4_info_hash_characterization (t1 t2 : TorrentDict) :
    get_info_hash t1.info = get_info_hash t2.info ↔
      (t1.info.name = t2.info.name ∧ t1.info.pieceLength = t2.info.pieceLength ∧
       t1.info.pieces = t2.info.pieces ∧ t1.info.fileInfo = t2.info.fileInfo) := by
  constructor
  · intro h
    have hb : bencodeInfo t1.info = bencodeInfo t2.info := h
    rw [bencodeInfo_inj _ _ hb]
    exact ⟨rfl, rfl, rfl, rfl⟩
  · rintro ⟨hn, hpl, hp, hf⟩
    show bencodeInfo t1.info = bencodeInfo t2.info
    rw [infoDict_eq_of_fields t1.info t2.info hn hpl hp hf]

/-- The filesystem of the C5 scenario: a site directory `/w` holding
`index.html` (whose text is exactly the literal `assets/app.js`), the
referenced file `assets/app.js`, and an unreferenced root file `zzz.css`;
the walk lists the children in a scrambled order. -/
def fsC5 : FileSys :=
  { dirList := ["/w".toList, "/w/".toList, "/w/assets".toList]
    fileContents := [("/w/index.html".toList, "assets/app.js".toList),
                     ("/w/assets/app.js".toList, "JS".toList),
                     ("/w/zzz.css".toList, "ZZ".toList)]
    walkList := [("/w".toList,
      ["/w/assets/app.js".toList, "/w/zzz.css".toList, "/w/index.html".toList])]
    cwdBase := "w".toList }

/-- The detail record of the scenario's root `index.html`. -/
def idxDetail : FileDetail := build_file_detail_dict fsC5 "/w/index.html".toList "/w".toList

/-- The detail record of the scenario's `assets/app.js`. -/
def appDetail : FileDetail := build_file_detail_dict fsC5 "/w/assets/app.js".toList "/w".toList

/-- The detail record of the scenario's unreferenced `zzz.css`. -/
def zzzDetail : FileDetail := build_file_detail_dict fsC5 "/w/zzz.css".toList "/w".toList

/-- All six catalog orders of the three scenario files. -/
def permsC5 : List (List FileDetail) :=
  [[idxDetail, appDetail, zzzDetail], [idxDetail, zzzDetail, appDetail],
   [appDetail, idxDetail, zzzDetail], [appDetail, zzzDetail, idxDetail],
   [zzzDetail, idxDetail, appDetail], [zzzDetail, appDetail, idxDetail]]

/-- C5: on the scenario catalog — `index.html` whose text contains the
literal `assets/app.js`, the file `assets/app.js`, and the unreferenced
root file `zzz.css` — the three sequential stable sorts of `sort_files`
produce `[index.html, assets/app.js, zzz.css]` whatever the incoming
catalog order, and the full pipeline with optimization enabled emits the
details in exactly that order. -/
theorem claim5_order_scenario (l : List FileDetail) (h : l ∈ permsC5) :
    sort_files fsC5 l = [idxDetail, appDetail, zzzDetail] ∧
    (process_files fsC5 ["/w".toList] 4 false true).file_details
        = [idxDetail, appDetail, zzzDetail] := by
  refine ⟨?_, by decide⟩
  simp only [permsC5, List.mem_cons, List.mem_singleton, List.not_mem_nil, or_false] at h
  rcases h with rfl | rfl | rfl | rfl | rfl | rfl <;> decide

/-- Witness for C5 at the already-sorted catalog order. -/
theorem claim5_order_scenario_witness :
    [idxDetail, appDetail, zzzDetail] ∈ permsC5 ∧
      sort_files fsC5 [idxDetail, appDetail, zzzDetail] = [idxDetail, appDetail, zzzDetail] :=
  ⟨by decide, (claim5_order_scenario [idxDetail, appDetail, zzzDetail] (by decide)).1⟩

/-- The filesystem of the C6 failing input: files `/a/b/a/c` and `/a/d`,
whose common root is `/a`. -/
def fsC6 : FileSys :=
  { dirList := ["/a".toList, "/a/".toList, "/a/b".toList, "/a/b/a".toList]
    fileContents := [("/a/b/a/c".toList, "x".toList), ("/a/d".toList, "y".toList)]
    walkList := []
    cwdBase := "w".toList }

/-- C6: the claim states that the recorded path components are the absolute
path with the common root removed exactly once, from the front, and that
joining the common root with the components reconstructs the absolute
path.  The code violates this: `relativize_file_path` uses `str.replace`,
which removes every occurrence of `common_root + os.sep`.  For common root
`/a/` and file `/a/b/a/c` it yields `bc` (components `[bc]`) instead of
`b/a/c` (components `[b, a, c]`), and rejoining gives `/a/bc`, not the
original path. -/
theorem claim6_relativize_counterexample :
    common_path_for_files fsC6 ["/a/b/a/c".toList, "/a/d".toList] = "/a/".toList ∧
    (build_file_detail_dict fsC6 "/a/b/a/c".toList "/a/".toList).rel_path = "bc".toList ∧
    (build_file_detail_dict fsC6 "/a/b/a/c".toList "/a/".toList).rel_path_components
        = ["bc".toList] ∧
    (build_file_detail_dict fsC6 "/a/b/a/c".toList "/a/".toList).rel_path_components
        ≠ ["b".toList, "a".toList, "c".toList] ∧
    join_path_component_list ("/a/".toList ::
        (build_file_detail_dict fsC6 "/a/b/a/c".toList "/a/".toList).rel_path_components)
        ≠ "/a/b/a/c".toList := by
  decide

/-- C7: `announce` (the first tracker) and `announce-list` (one list of all
trackers, in order) are present exactly when a non-empty tracker list is
supplied, and `url-list` exactly when a non-empty webseed list is supplied;
an absent (`None`) or empty input leaves the key out entirely instead of
writing an empty list. -/
theorem claim7_optional_tracker_webseed_keys (fs : FileSys) (file_paths : List (List Char))
    (name : Option (List Char)) (trackers webseeds : Option (List (List Char)))
    (piece_length now : Nat) (include_hidden optimize_file_order : Bool) :
    ((build_torrent_dict fs file_paths name trackers webseeds piece_length
        include_hidden optimize_file_order now).announce = (trackers.getD []).head?) ∧
    ((build_torrent_dict fs file_paths name trackers webseeds piece_length
        include_hidden optimize_file_order now).announceList =
      if trackers.getD [] = [] then none else some [trackers.getD []]) ∧
    ((build_torrent_dict fs file_paths name trackers webseeds piece_length
        include_hidden optimize_file_order now).urlList =
      if webseeds.getD [] = [] then none else some (webseeds.getD [])) ∧
    ((build_torrent_dict fs file_paths name trackers webseeds piece_length
        include_hidden optimize_file_order now).announce.isSome ↔ trackers.getD [] ≠ []) ∧
    ((build_torrent_dict fs file_paths name trackers webseeds piece_length
        include_hidden optimize_file_order now).announceList.isSome ↔ trackers.getD [] ≠ []) ∧
    ((build_torrent_dict fs file_paths name trackers webseeds piece_length
        include_hidden optimize_file_order now).urlList.isSome ↔ webseeds.getD [] ≠ []) := by
  rcases hts : trackers.getD [] with _ | ⟨t0, ts0⟩ <;>
    rcases hws : webseeds.getD [] with _ | ⟨w0, ws0⟩ <;>
      simp [build_torrent_dict, hts, hws]

/-- C8: the claim states that a supplied comment appears under the
`comment` key.  The code violates this: the CLI parses `--comment`
(lines 289-290) but `args.comment` is never passed on — `build_torrent_dict`
has no comment parameter and never writes a `comment` key, so the output
mapping never contains one. -/
theorem claim8_comment_never_present (fs : FileSys) (file_paths : List (List Char))
    (name : Option (List Char)) (trackers webseeds : Option (List (List Char)))
    (piece_length now : Nat) (include_hidden optimize_file_order : Bool) :
    (build_torrent_dict fs file_paths name trackers webseeds piece_length
        include_hidden optimize_file_order now).comment = none := rfl

/-- Projection: the hashed (filtered) path list of `process_files`. -/
theorem process_files_hashed (fs : FileSys) (file_paths : List (List Char))
    (piece_length : Nat) (include_hidden optimize_file_order : Bool) :
    (process_files fs file_paths piece_length include_hidden optimize_file_order).hashed_paths
      = filteredPaths fs file_paths include_hidden := rfl

/-- Projection: the caller's mutated list after `process_files`. -/
theorem process_files_caller (fs : FileSys) (file_paths : List (List Char))
    (piece_length : Nat) (include_hidden optimize_file_order : Bool) :
    (process_files fs file_paths piece_length include_hidden optimize_file_order).caller_paths
      = expandedPaths fs file_paths := rfl

/-- Projection: the details list of `process_files`. -/
theorem process_files_details (fs : FileSys) (file_paths : List (List Char))
    (piece_length : Nat) (include_hidden optimize_file_order : Bool) :
    (process_files fs file_paths piece_length include_hidden optimize_file_order).file_details
      = (if optimize_file_order then
          sort_files fs ((filteredPaths fs file_paths include_hidden).map
            (fun p => build_file_detail_dict fs p (common_path_for_files fs file_paths)))
        else (filteredPaths fs file_paths include_hidden).map
            (fun p => build_file_detail_dict fs p (common_path_for_files fs file_paths))) := rfl

/-- Projection: the pieces of `process_files` are hashed from the filtered,
unsorted path list. -/
theorem process_files_pieces (fs : FileSys) (file_paths : List (List Char))
    (piece_length : Nat) (include_hidden optimize_file_order : Bool) :
    (process_files fs file_paths piece_length include_hidden optimize_file_order).pieces
      = hash_pieces_for_file_paths fs (filteredPaths fs file_paths include_hidden)
          piece_length := rfl

/-- Projection: the mode-dependent part of the built `info` dictionary. -/
theorem build_torrent_dict_fileInfo (fs : FileSys) (file_paths : List (List Char))
    (name : Option (List Char)) (trackers webseeds : Option (List (List Char)))
    (piece_length now : Nat) (include_hidden optimize_file_order : Bool) :
    (build_torrent_dict fs file_paths name trackers webseeds piece_length
        include_hidden optimize_file_order now).info.fileInfo
      = (if (expandedPaths fs file_paths).length = 1 then
          FileInfo.single ((process_files fs file_paths piece_length include_hidden
            optimize_file_order).file_details.headD default).file_length
        else FileInfo.multi ((process_files fs file_paths piece_length include_hidden
            optimize_file_order).file_details.map
          (fun details => { length := details.file_length
                            path := details.rel_path_components }))) := rfl

/-- Projection: the pieces of the built `info` dictionary. -/
theorem build_torrent_dict_pieces (fs : FileSys) (file_paths : List (List Char))
    (name : Option (List Char)) (trackers webseeds : Option (List (List Char)))
    (piece_length now : Nat) (include_hidden optimize_file_order : Bool) :
    (build_torrent_dict fs file_paths name trackers webseeds piece_length
        include_hidden optimize_file_order now).info.pieces
      = (process_files fs file_paths piece_length include_hidden
          optimize_file_order).pieces := rfl

/-- Sorting an empty details list yields an empty list. -/
theorem sort_files_nil (fs : FileSys) : sort_files fs [] = [] := rfl

/-- The filesystem of the C9 counterexample: the single input `/e` is a
directory with no descendant files, so zero files remain after expansion
and filtering. -/
def fsC9 : FileSys :=
  { dirList := ["/e".toList]
    fileContents := []
    walkList := [("/e".toList, [])]
    cwdBase := "w".toList }

/-- C9 counterexample: the claim states that with zero files remaining the
build fails with `EmptyInputError` and no descriptor is produced.  The code
has no such check — on the empty-directory input, zero files remain
(second conjunct), yet `build_torrent_dict` returns a complete descriptor:
multi-file mode with an empty `files` list and `pieces` consisting of one
digest of the empty byte string. -/
theorem claim9_counterexample :
    build_torrent_dict fsC9 ["/e".toList] none none none 4 false true 0 =
      { createdBy := "TWT-Gen/0.0.1".toList
        creationDate := 0
        encoding := "UTF-8".toList
        info := { name := "e".toList, pieceLength := 4, pieces := sha1 []
                  fileInfo := FileInfo.multi [] }
        announce := none, announceList := none, urlList := none, comment := none } ∧
    (process_files fsC9 ["/e".toList] 4 false true).hashed_paths = [] := by
  decide

/-- C9 as amended: when zero files remain after expansion and filtering
(and the mutated caller list is not a singleton, which would instead crash
on `file_details[0]`), no error is raised: the build still returns a
descriptor, in multi-file mode with an empty `files` list, whose `pieces`
field is a single digest of the empty byte string (`read_in_pieces` still
yields one empty piece). -/
theorem claim9_amended_empty_input (fs : FileSys) (file_paths : List (List Char))
    (name : Option (List Char)) (trackers webseeds : Option (List (List Char)))
    (piece_length now : Nat) (include_hidden optimize_file_order : Bool)
    (h1 : (process_files fs file_paths piece_length include_hidden
            optimize_file_order).hashed_paths = [])
    (h2 : (process_files fs file_paths piece_length include_hidden
            optimize_file_order).caller_paths.length ≠ 1) :
    (build_torrent_dict fs file_paths name trackers webseeds piece_length
        include_hidden optimize_file_order now).info.fileInfo = FileInfo.multi [] ∧
    (build_torrent_dict fs file_paths name trackers webseeds piece_length
        include_hidden optimize_file_order now).info.pieces = sha1 [] ∧
    read_in_pieces [] piece_length = [[]] := by
  rw [process_files_hashed] at h1
  rw [process_files_caller] at h2
  have hdet : (process_files fs file_paths piece_length include_hidden
      optimize_file_order).file_details = [] := by
    rw [process_files_details, h1]
    cases optimize_file_order <;> simp [sort_files_nil]
  refine ⟨?_, ?_, rfl⟩
  · rw [build_torrent_dict_fileInfo, if_neg h2, hdet]
    rfl
  · rw [build_torrent_dict_pieces, process_files_pieces, h1]
    rfl

/-- Witness for C9 as amended, at the empty-directory input of the
counterexample. -/
theorem claim9_amended_empty_input_witness :
    (process_files fsC9 ["/e".toList] 4 false true).hashed_paths = [] ∧
    (process_files fsC9 ["/e".toList] 4 false true).caller_paths.length ≠ 1 ∧
    (build_torrent_dict fsC9 ["/e".toList] none none none 4 false true 0).info.fileInfo
      = FileInfo.multi [] :=
  ⟨by decide, by decide,
    (claim9_amended_empty_input fsC9 ["/e".toList] none none none 4 0 false true
      (by decide) (by decide)).1⟩

/-- C10: building a torrent mutates the caller's `file_paths` list in
place.  Under the well-formedness of `os.walk` (walk results are file
paths, never directories), after `process_files` — and hence after
`build_torrent_dict`, which performs no further mutation — the caller's
list object holds its original non-directory entries followed by all walk
results of its directory entries; every directory entry is gone, every
descendant file path of a directory entry is present, and whenever the
input contained a directory entry the list no longer equals what was
passed in. -/
theorem claim10_caller_list_mutation (fs : FileSys) (file_paths : List (List Char))
    (piece_length : Nat) (include_hidden optimize_file_order : Bool)
    (hwalk : ∀ e ∈ fs.walkList, ∀ c ∈ e.2, fs.isDir c = false)
    (d : List Char) (hd : d ∈ file_paths) (hdir : fs.isDir d = true) :
    (process_files fs file_paths piece_length include_hidden
        optimize_file_order).caller_paths
      = file_paths.filter (fun p => !fs.isDir p)
        ++ ((file_paths.filter fs.isDir).map fs.walkFiles).flatten ∧
    d ∉ (process_files fs file_paths piece_length include_hidden
        optimize_file_order).caller_paths ∧
    (∀ c ∈ fs.walkFiles d, c ∈ (process_files fs file_paths piece_length include_hidden
        optimize_file_order).caller_paths) ∧
    (process_files fs file_paths piece_length include_hidden
        optimize_file_order).caller_paths ≠ file_paths := by
  have hcaller : (process_files fs file_paths piece_length include_hidden
      optimize_file_order).caller_paths
      = file_paths.filter (fun p => !fs.isDir p)
        ++ ((file_paths.filter fs.isDir).map fs.walkFiles).flatten := by
    rw [process_files_caller]
    exact expandedPaths_spec fs file_paths hwalk
  have hnot : d ∉ (process_files fs file_paths piece_length include_hidden
      optimize_file_order).caller_paths := by
    rw [hcaller]
    intro hmem
    rcases List.mem_append.mp hmem with h1 | h2
    · rw [List.mem_filter] at h1
      rw [hdir] at h1
      simp at h1
    · rw [List.mem_flatten] at h2
      obtain ⟨l, hl, hdl⟩ := h2
      rw [List.mem_map] at hl
      obtain ⟨p, _, rfl⟩ := hl
      obtain ⟨e, he, hce⟩ := mem_walkList_of_mem_walkFiles fs p d hdl
      rw [hwalk e he d hce] at hdir
      exact Bool.false_ne_true hdir
  refine ⟨hcaller, hnot, ?_, ?_⟩
  · intro c hcw
    rw [hcaller]
    apply List.mem_append_right
    rw [List.mem_flatten]
    exact ⟨fs.walkFiles d,
      List.mem_map.mpr ⟨d, List.mem_filter.mpr ⟨hd, hdir⟩, rfl⟩, hcw⟩
  · intro heq
    exact hnot (by rw [heq]; exact hd)

/-- The filesystem of the C10 witness: `/d` is a directory with two
descendant files, `/f` a plain file. -/
def fsC10 : FileSys :=
  { dirList := ["/d".toList]
    fileContents := []
    walkList := [("/d".toList, ["/d/x".toList, "/d/y".toList])]
    cwdBase := "w".toList }

/-- Witness for C10: after processing `[/d, /f]` the caller's list has
changed. -/
theorem claim10_caller_list_mutation_witness :
    (∀ e ∈ fsC10.walkList, ∀ c ∈ e.2, fsC10.isDir c = false) ∧
    "/d".toList ∈ ["/d".toList, "/f".toList] ∧
    fsC10.isDir "/d".toList = true ∧
    (process_files fsC10 ["/d".toList, "/f".toList] 4 true false).caller_paths
      ≠ ["/d".toList, "/f".toList] :=
  ⟨by decide, by decide, by decide,
    (claim10_caller_list_mutation fsC10 ["/d".toList, "/f".toList] 4 true false
      (by decide) "/d".toList (by decide) (by decide)).2.2.2⟩
